import Mathlib

/-!
Verification development for the nazimhikmet ingestion pipeline.

The Python modules under `src/` are shallowly embedded as executable Lean
definitions: records (Python dicts) become association lists over a small
value type with Python truthiness, the ETL stages become pure functions, and
the MongoDB store stage becomes explicit state passing over an association
list keyed by collection and upsert key.
-/

namespace NazimTwin

/-- A Python value as it occurs in the pipeline's record dictionaries. -/
inductive PyVal where
  | str (s : String)
  | int (n : Int)
  | bool (b : Bool)
  | none
deriving DecidableEq, Repr

/-- Python truthiness for the values above (`if v:`). -/
def PyVal.truthy : PyVal → Bool
  | .str s => s ≠ ""
  | .int n => n ≠ 0
  | .bool b => b
  | .none => false

/-- A Python dict embedded as an association list. Well-formed dicts bind
each key at most once; the operations below read the first binding and keep
at most one binding for any key they write. -/
abbrev Dict (κ β : Type) := List (κ × β)

/-- `d.get(k)` on a dict: `none` models an absent key. -/
def Dict.get {κ β : Type} [DecidableEq κ] (r : Dict κ β) (k : κ) : Option β :=
  (r.find? (fun kv => kv.1 = k)).map (·.2)

/-- `d[k] = v` on a dict: drop any old binding of `k` and bind it to `v`. -/
def Dict.set {κ β : Type} [DecidableEq κ] (r : Dict κ β) (k : κ) (v : β) :
    Dict κ β :=
  r.filter (fun kv => kv.1 ≠ k) ++ [(k, v)]

/-- `d.setdefault(k, v)`: bind `k` to `v` only when `k` is absent. -/
def Dict.setdefault {κ β : Type} [DecidableEq κ] (r : Dict κ β) (k : κ)
    (v : β) : Dict κ β :=
  match Dict.get r k with
  | Option.none => Dict.set r k v
  | Option.some _ => r

/-- A raw record / payload of the pipeline: a dict from field names to
Python values. -/
abbrev Record := Dict String PyVal

theorem find?_filter_of_imp {α : Type} (p q : α → Bool)
    (h : ∀ x, p x = true → q x = true) :
    ∀ l : List α, (l.filter q).find? p = l.find? p := by
  intro l
  induction l with
  | nil => rfl
  | cons x xs ih =>
    by_cases hq : q x
    · by_cases hp : p x
      · simp [List.filter_cons, hq, List.find?_cons, hp]
      · simp [List.filter_cons, hq, List.find?_cons, hp, ih]
    · have hp : p x = false := by
        cases hpx : p x
        · rfl
        · exact absurd (h x hpx) (by simpa using hq)
      simp [List.filter_cons, hq, List.find?_cons, hp, ih]

theorem Dict.get_set_same {κ β : Type} [DecidableEq κ] (r : Dict κ β) (k : κ)
    (v : β) : Dict.get (Dict.set r k v) k = some v := by
  have h1 : (r.filter (fun kv => kv.1 ≠ k)).find? (fun kv => kv.1 = k)
      = Option.none := by
    rw [List.find?_eq_none]
    intro x hx
    have := (List.mem_filter.mp hx).2
    simpa using this
  simp [Dict.get, Dict.set, List.find?_append, h1, List.find?_cons]

theorem Dict.get_set_other {κ β : Type} [DecidableEq κ] (r : Dict κ β)
    (k k' : κ) (v : β) (hne : k' ≠ k) :
    Dict.get (Dict.set r k v) k' = Dict.get r k' := by
  have hfun : (fun a : κ × β => !decide (a.1 = k) && decide (a.1 = k'))
      = fun kv : κ × β => decide (kv.1 = k') := by
    funext a
    by_cases ha : a.1 = k'
    · simp [ha, hne]
    · simp [ha]
  simp [Dict.get, Dict.set, List.find?_append, List.find?_cons,
    Ne.symm hne, hfun]

theorem Dict.get_setdefault_other {κ β : Type} [DecidableEq κ] (r : Dict κ β)
    (k k' : κ) (v : β) (hne : k' ≠ k) :
    Dict.get (Dict.setdefault r k v) k' = Dict.get r k' := by
  unfold Dict.setdefault
  cases Dict.get r k with
  | none => exact Dict.get_set_other r k k' v hne
  | some _ => rfl

/-! ## src/etl/steps/dedup.py -/

/-- The truthy `hash` of a record, when it has one (`record.get("hash")`
followed by the code's `if not record_hash:` falsy test). -/
def hashOf (r : Record) : Option PyVal :=
  match Dict.get r "hash" with
  | Option.none => Option.none
  | Option.some v => if v.truthy then some v else Option.none

/-- Loop of `dedupe_records`, with the `seen` set made explicit. -/
def dedupeGo (seen : List PyVal) : List Record → List Record
  | [] => []
  | r :: rs =>
    match hashOf r with
    | Option.none => r :: dedupeGo seen rs
    | Option.some h =>
      if h ∈ seen then dedupeGo seen rs
      else r :: dedupeGo (h :: seen) rs

/-- `dedupe_records`: remove records that share an already-seen truthy hash. -/
def dedupe_records (records : List Record) : List Record :=
  dedupeGo [] records

theorem dedupeGo_sublist (seen : List PyVal) (rs : List Record) :
    (dedupeGo seen rs).Sublist rs := by
  induction rs generalizing seen with
  | nil => simp [dedupeGo]
  | cons r rs ih =>
    cases hh : hashOf r with
    | none => simpa [dedupeGo, hh] using (ih seen).cons₂ r
    | some h =>
      by_cases hmem : h ∈ seen
      · simpa [dedupeGo, hh, hmem] using (ih seen).cons r
      · simpa [dedupeGo, hh, hmem] using (ih (h :: seen)).cons₂ r

theorem dedupeGo_hashes_nodup (seen : List PyVal) (rs : List Record) :
    ((dedupeGo seen rs).filterMap hashOf).Nodup ∧
      ∀ h ∈ (dedupeGo seen rs).filterMap hashOf, h ∉ seen := by
  induction rs generalizing seen with
  | nil => simp [dedupeGo]
  | cons r rs ih =>
    cases hh : hashOf r with
    | none =>
      simpa [dedupeGo, hh, List.filterMap_cons, hh] using ih seen
    | some h =>
      by_cases hmem : h ∈ seen
      · simpa [dedupeGo, hh, hmem] using ih seen
      · have ih' := ih (h :: seen)
        refine ⟨?_, ?_⟩
        · simp only [dedupeGo, hh, hmem, if_false, List.filterMap_cons]
          refine List.Nodup.cons ?_ ih'.1
          intro hcontra
          exact (ih'.2 h hcontra) (List.mem_cons_self h seen)
        · intro h' hmem'
          simp only [dedupeGo, hh, hmem, if_false, List.filterMap_cons,
            List.mem_cons] at hmem'
          rcases hmem' with rfl | hmem'
          · exact hmem
          · intro hs
            exact (ih'.2 h' hmem') (List.mem_cons_of_mem _ hs)

theorem dedupeGo_count_hashless (seen : List PyVal) (rs : List Record)
    (r : Record) (hr : hashOf r = Option.none) :
    (dedupeGo seen rs).count r = rs.count r := by
  induction rs generalizing seen with
  | nil => simp [dedupeGo]
  | cons r' rs ih =>
    cases hh : hashOf r' with
    | none => simp [dedupeGo, hh, List.count_cons, ih seen]
    | some h =>
      by_cases hmem : h ∈ seen
      · have hne' : (r' == r) = false := by
          apply beq_eq_false_iff_ne.mpr
          intro he
          rw [he, hr] at hh
          exact Option.noConfusion hh
        simp [dedupeGo, hh, hmem, List.count_cons, ih seen, hne']
      · simp [dedupeGo, hh, hmem, List.count_cons, ih (h :: seen)]

/-- **C2.** Dedupe stage: the output is a subsequence of the input (so
first-occurrence order is preserved), no two output records carrying a
truthy hash share the same hash value, and every record without a hash is
passed through unconditionally (its multiplicity is preserved, so even
several identical hash-less records all survive). -/
theorem dedupe_records_spec (rs : List Record) :
    (dedupe_records rs).Sublist rs ∧
      ((dedupe_records rs).filterMap hashOf).Nodup ∧
      ∀ r : Record, hashOf r = Option.none →
        (dedupe_records rs).count r = rs.count r := by
  refine ⟨dedupeGo_sublist [] rs, (dedupeGo_hashes_nodup [] rs).1, ?_⟩
  intro r hr
  exact dedupeGo_count_hashless [] rs r hr

/-- Witness for C2 on a concrete batch: two records share hash `"h1"`, the
second copy is dropped, and the two identical hash-less records both
survive. -/
theorem dedupe_records_spec_witness :
    (dedupe_records
        [[("hash", PyVal.str "h1"), ("title", PyVal.str "a")],
         [("title", PyVal.str "b")],
         [("hash", PyVal.str "h1"), ("title", PyVal.str "c")],
         [("title", PyVal.str "b")]]).count [("title", PyVal.str "b")] =
      ([[("hash", PyVal.str "h1"), ("title", PyVal.str "a")],
        [("title", PyVal.str "b")],
        [("hash", PyVal.str "h1"), ("title", PyVal.str "c")],
        [("title", PyVal.str "b")]] : List Record).count
        [("title", PyVal.str "b")] :=
  (dedupe_records_spec _).2.2 [("title", PyVal.str "b")] (by decide)

/-! ## Python string primitives

The pipeline's strings are handled through a small set of Python string
methods. They are modelled character-wise; character classes cover ASCII
plus the Turkish letters that occur in this repository's data. -/

/-- Python `str.strip()` whitespace (ASCII fragment). -/
def pyIsSpace (c : Char) : Bool :=
  c = ' ' || c = '\t' || c = '\n' || c = '\r' || c = '\x0b' || c = '\x0c'

/-- `s.strip()` on a line represented as a character list. -/
def pyStripL (s : List Char) : List Char :=
  ((s.dropWhile pyIsSpace).reverse.dropWhile pyIsSpace).reverse

/-- `s.strip()` on a `String`. -/
def pyStrip (s : String) : String :=
  String.mk (pyStripL s.toList)

/-- `s.lower()` (simple per-character lowering, as for the registry's
ASCII source names). -/
def pyLower (s : String) : String :=
  String.mk (s.toList.map Char.toLower)

/-! ## src/crawler/dispatcher.py -/

/-- Registry keys: `(kind, optional normalized source name)`. -/
abbrev RegistryKey := String × Option String

/-- Crawler implementations are identified by name; the registry maps keys
to them (`CRAWLER_REGISTRY`). -/
abbrev Registry := Dict RegistryKey String

/-- `_normalize_source`: falsy source names become `None`; otherwise strip
and lowercase, and a result that is empty again becomes `None`. -/
def normalize_source (source_name : Option String) : Option String :=
  match source_name with
  | Option.none => Option.none
  | Option.some s =>
    if s = "" then Option.none
    else
      let normalized := pyLower (pyStrip s)
      if normalized = "" then Option.none else some normalized

/-- `register_crawler`: store the class under `(kind, normalized source)`. -/
def register_crawler (reg : Registry) (kind : String) (crawler_cls : String)
    (source_name : Option String) : Registry :=
  Dict.set reg (kind, normalize_source source_name) crawler_cls

/-- `resolve_crawler`: exact `(kind, normalized source)` lookup, then the
`(kind, None)` default; `Option.none` models the `KeyError` raised when
neither entry exists. -/
def resolve_crawler (reg : Registry) (kind : String)
    (source_name : Option String) : Option String :=
  match Dict.get reg (kind, normalize_source source_name) with
  | Option.some crawler_cls => some crawler_cls
  | Option.none => Dict.get reg (kind, Option.none)

/-- **C7.** Registry resolution: an exact `(kind, source)` entry wins; when
it is absent the `(kind, None)` default is returned; resolution fails (the
configuration `KeyError`) exactly when both are absent; and with only a
default `news` crawler registered, resolving kind `news` with source name
`my-site` returns that default implementation. -/
theorem resolve_crawler_spec (reg : Registry) (kind : String)
    (src : Option String) (c : String) :
    (Dict.get reg (kind, normalize_source src) = some c →
        resolve_crawler reg kind src = some c) ∧
    (Dict.get reg (kind, normalize_source src) = Option.none →
        resolve_crawler reg kind src = Dict.get reg (kind, Option.none)) ∧
    (resolve_crawler reg kind src = Option.none ↔
        Dict.get reg (kind, normalize_source src) = Option.none ∧
          Dict.get reg (kind, Option.none) = Option.none) ∧
    resolve_crawler (register_crawler [] "news" c Option.none) "news"
        (some "my-site") = some c := by
  refine ⟨?_, ?_, ?_, ?_⟩
  · intro h
    simp [resolve_crawler, h]
  · intro h
    simp [resolve_crawler, h]
  · unfold resolve_crawler
    cases h : Dict.get reg (kind, normalize_source src) with
    | none => simp
    | some cls => simp
  · rfl

/-- Witness for C7 at a concrete registry holding an exact entry for
`("news", "my-site")`: the exact entry wins over the default. -/
theorem resolve_crawler_spec_witness :
    resolve_crawler
        [(("news", Option.none), "DefaultNews"),
         (("news", some "my-site"), "MySiteNews")] "news"
        (some "my-site") = some "MySiteNews" :=
  (resolve_crawler_spec
      [(("news", Option.none), "DefaultNews"),
       (("news", some "my-site"), "MySiteNews")] "news"
      (some "my-site") "MySiteNews").1 (by rfl)

/-- **C9.** Source-name normalization: resolution only depends on the
normalized source name (strip + lowercase), `"My-Site"` and `" my-site "`
normalize identically, a whitespace-only source name is treated as absent
(the kind default), and registration normalizes too, so a name registered
as `s₁` is found under any `s₂` with the same normalization. -/
theorem registry_source_normalization_spec (reg : Registry) (kind : String)
    (cls : String) (s₁ s₂ : Option String) :
    (normalize_source s₁ = normalize_source s₂ →
        resolve_crawler reg kind s₁ = resolve_crawler reg kind s₂) ∧
    normalize_source (some "My-Site") = normalize_source (some " my-site ") ∧
    (∀ s : String, pyStrip s = "" → normalize_source (some s) = Option.none) ∧
    (normalize_source s₁ = normalize_source s₂ →
        resolve_crawler (register_crawler reg kind cls s₁) kind s₂
          = some cls) := by
  refine ⟨?_, by rfl, ?_, ?_⟩
  · intro h
    unfold resolve_crawler
    rw [h]
  · intro s hs
    unfold normalize_source
    by_cases h0 : s = ""
    · simp [h0]
    · simp [h0, pyLower, hs]
  · intro h
    unfold resolve_crawler register_crawler
    rw [← h, Dict.get_set_same]

/-- Witness for C9: a crawler registered under `"My-Site"` is resolved
under `" my-site "`. -/
theorem registry_source_normalization_spec_witness :
    resolve_crawler
        (register_crawler [] "poem" "PoemCrawler" (some "My-Site")) "poem"
        (some " my-site ") = some "PoemCrawler" :=
  (registry_source_normalization_spec [] "poem" "PoemCrawler"
      (some "My-Site") (some " my-site ")).2.2.2 (by rfl)

/-! ## src/crawler/utils/text.py -/

/-- `sep.join(items)` (Python `str.join`). -/
def pyJoin (sep : String) : List String → String
  | [] => ""
  | [x] => x
  | x :: y :: rest => x ++ sep ++ pyJoin sep (y :: rest)

/-- `mkhash(*parts)`: join the parts with `"|"`, mapping falsy parts to the
empty string, and digest the joined string. The digest (`hashlib.sha256`
hex digest) is an arbitrary function of the joined string, so it is a
parameter here; every property below holds for the real digest. -/
def mkhash (digest : String → String) (parts : List (Option String)) :
    String :=
  digest (pyJoin "|" (parts.map (fun p => p.getD "")))

/-- **C8.** `mkhash` joins its parts with `"|"` before digesting, with a
missing part treated as the empty string; hence it is not injective over
part lists: hashing the two parts `(a, b)` always yields the same digest as
hashing the single part `a ++ "|" ++ b`, although the two part lists are
always distinct. -/
theorem mkhash_separator_collision (digest : String → String)
    (a b : String) :
    mkhash digest [some a, some b] = mkhash digest [some (a ++ "|" ++ b)] ∧
    (∀ parts : List (Option String),
        mkhash digest parts
          = mkhash digest (parts.map (fun p => some (p.getD "")))) ∧
    ([some a, some b] : List (Option String)) ≠ [some (a ++ "|" ++ b)] := by
  refine ⟨rfl, ?_, by simp⟩
  intro parts
  unfold mkhash
  congr 2
  rw [List.map_map]
  rfl

/-! ## src/crawler/base.py -/

/-- `BaseCrawler._apply_safe_mode`. A disabled safe mode returns the
payload untouched; otherwise a truthy `text_full` is excerpted into
`summary` (first 250 characters) and cleared. `Option.none` models the
`TypeError` Python would raise when slicing a truthy non-string
`text_full`. -/
def apply_safe_mode (safe_mode : Bool) (payload : Record) : Option Record :=
  if !safe_mode then some payload
  else
    let item := payload
    match Dict.get item "text_full" with
    | Option.some (PyVal.str s) =>
      if s ≠ "" then
        some (Dict.set (Dict.set item "summary" (PyVal.str (s.take 250)))
          "text_full" (PyVal.str ""))
      else some item
    | Option.some v => if v.truthy then Option.none else some item
    | Option.none => some item

/-- `BaseCrawler._finalize_payload`: default `kind`, `source_url`,
`source_name` (only for a truthy user), and `safe_mode`, then apply
safe-mode redaction. -/
def finalize_payload (kind : String) (safe_mode : Bool) (record : Record)
    (link : String) (user : String) : Option Record :=
  let payload := record
  let payload := Dict.setdefault payload "kind" (PyVal.str kind)
  let payload := Dict.setdefault payload "source_url"
    (match Dict.get payload "source_url" with
     | Option.some v => if v.truthy then v else PyVal.str link
     | Option.none => PyVal.str link)
  let payload := if user ≠ "" then
      Dict.setdefault payload "source_name" (PyVal.str user)
    else payload
  let payload := Dict.setdefault payload "safe_mode" (PyVal.bool safe_mode)
  apply_safe_mode safe_mode payload

theorem apply_safe_mode_redacts (r : Record) (s : String)
    (hs : Dict.get r "text_full" = some (PyVal.str s)) (hne : s ≠ "") :
    apply_safe_mode true r
      = some (Dict.set (Dict.set r "summary" (PyVal.str (s.take 250)))
          "text_full" (PyVal.str "")) := by
  simp [apply_safe_mode, hs, hne]

/-- **C4.** Safe-mode redaction: with safe mode enabled, a record whose
`text_full` is a non-empty string gets `summary` set to exactly the first
250 characters of `text_full` and `text_full` set to the empty string; a
record lacking `text_full` is returned unchanged; and the shared
finalization path applies the same redaction for every source `kind`. -/
theorem safe_mode_redaction_spec :
    (∀ (r : Record) (s : String),
        Dict.get r "text_full" = some (PyVal.str s) → s ≠ "" →
        ∃ r', apply_safe_mode true r = some r' ∧
          Dict.get r' "summary" = some (PyVal.str (s.take 250)) ∧
          Dict.get r' "text_full" = some (PyVal.str "")) ∧
    (∀ r : Record, Dict.get r "text_full" = Option.none →
        apply_safe_mode true r = some r) ∧
    (∀ (kind : String) (r : Record) (s : String) (link user : String),
        Dict.get r "text_full" = some (PyVal.str s) → s ≠ "" →
        ∃ r', finalize_payload kind true r link user = some r' ∧
          Dict.get r' "summary" = some (PyVal.str (s.take 250)) ∧
          Dict.get r' "text_full" = some (PyVal.str "")) := by
  refine ⟨?_, ?_, ?_⟩
  · intro r s hs hne
    refine ⟨_, apply_safe_mode_redacts r s hs hne, ?_, ?_⟩
    · rw [Dict.get_set_other _ _ _ _ (by decide), Dict.get_set_same]
    · rw [Dict.get_set_same]
  · intro r hr
    simp [apply_safe_mode, hr]
  · intro kind r s link user hs hne
    unfold finalize_payload
    set p₁ := Dict.setdefault r "kind" (PyVal.str kind) with hp₁
    have h₁ : Dict.get p₁ "text_full" = some (PyVal.str s) := by
      rw [hp₁, Dict.get_setdefault_other _ _ _ _ (by decide)]; exact hs
    set p₂ := Dict.setdefault p₁ "source_url"
      (match Dict.get p₁ "source_url" with
       | Option.some v => if v.truthy then v else PyVal.str link
       | Option.none => PyVal.str link) with hp₂
    have h₂ : Dict.get p₂ "text_full" = some (PyVal.str s) := by
      rw [hp₂, Dict.get_setdefault_other _ _ _ _ (by decide)]; exact h₁
    set p₃ := if user ≠ "" then
        Dict.setdefault p₂ "source_name" (PyVal.str user)
      else p₂ with hp₃
    have h₃ : Dict.get p₃ "text_full" = some (PyVal.str s) := by
      rw [hp₃]
      by_cases hu : user = ""
      · simpa [hu] using h₂
      · rw [if_pos hu, Dict.get_setdefault_other _ _ _ _ (by decide)]
        exact h₂
    set p₄ := Dict.setdefault p₃ "safe_mode" (PyVal.bool true) with hp₄
    have h₄ : Dict.get p₄ "text_full" = some (PyVal.str s) := by
      rw [hp₄, Dict.get_setdefault_other _ _ _ _ (by decide)]; exact h₃
    refine ⟨_, apply_safe_mode_redacts p₄ s h₄ hne, ?_, ?_⟩
    · rw [Dict.get_set_other _ _ _ _ (by decide), Dict.get_set_same]
    · rw [Dict.get_set_same]

/-- Witness for C4: a record whose `text_full` has 1000 characters ends up
with a 250-character summary and empty `text_full`, under an arbitrary
source kind through the shared finalization path. -/
theorem safe_mode_redaction_spec_witness :
    (∃ r', apply_safe_mode true
          [("text_full", PyVal.str (String.mk (List.replicate 1000 'a')))]
        = some r' ∧
      Dict.get r' "summary"
        = some (PyVal.str ((String.mk (List.replicate 1000 'a')).take 250)) ∧
      Dict.get r' "text_full" = some (PyVal.str "")) ∧
    ((String.mk (List.replicate 1000 'a')).take 250).length = 250 := by
  refine ⟨safe_mode_redaction_spec.1 _ _ (by rfl) ?_, ?_⟩
  · intro h
    have := congrArg String.length h
    rw [String.length_mk, List.length_replicate, String.length_empty] at this
    exact Nat.noConfusion this
  · rw [String.take_eq]
    rw [String.length_mk]
    rw [show (String.mk (List.replicate 1000 'a')).data
        = List.replicate 1000 'a' from rfl]
    rw [List.length_take, List.length_replicate]
    decide

/-- **C10.** Safe-mode redaction discards any pre-existing summary: for a
record with a non-empty string `text_full`, the output `summary` is the
250-character excerpt no matter what `summary` the record carried, and
every field other than `summary` and `text_full` reads back unchanged. -/
theorem safe_mode_summary_frame_spec (r : Record) (s : String)
    (hs : Dict.get r "text_full" = some (PyVal.str s)) (hne : s ≠ "") :
    ∃ r', apply_safe_mode true r = some r' ∧
      Dict.get r' "summary" = some (PyVal.str (s.take 250)) ∧
      ∀ k : String, k ≠ "summary" → k ≠ "text_full" →
        Dict.get r' k = Dict.get r k := by
  refine ⟨_, apply_safe_mode_redacts r s hs hne, ?_, ?_⟩
  · rw [Dict.get_set_other _ _ _ _ (by decide), Dict.get_set_same]
  · intro k hk₁ hk₂
    rw [Dict.get_set_other _ _ _ _ hk₂, Dict.get_set_other _ _ _ _ hk₁]

/-- Witness for C10: a record already carrying `summary = "old"` has it
replaced by the excerpt, while `author` is untouched. -/
theorem safe_mode_summary_frame_spec_witness :
    ∃ r', apply_safe_mode true
          [("summary", PyVal.str "old"), ("author", PyVal.str "NH"),
           ("text_full", PyVal.str "a poem")]
        = some r' ∧
      Dict.get r' "summary" = some (PyVal.str (("a poem" : String).take 250)) ∧
      ∀ k : String, k ≠ "summary" → k ≠ "text_full" →
        Dict.get r' k
          = Dict.get [("summary", PyVal.str "old"), ("author", PyVal.str "NH"),
              ("text_full", PyVal.str "a poem")] k :=
  safe_mode_summary_frame_spec
    [("summary", PyVal.str "old"), ("author", PyVal.str "NH"),
     ("text_full", PyVal.str "a poem")] "a poem" (by rfl) (by decide)

/-! ## src/crawler/crawlers/pdf_poems.py — CID placeholder repair

`_replace_cid_sequences` substitutes the regex `\(cid:(\d+)\)` left to
right; each match is replaced by `CID_REPLACEMENTS.get(code, "")`. As the
pattern opens with a literal `(` and its digit run is maximal before the
closing `)`, the substitution equals a left-to-right scan that, at each
`(`, tries to read `cid:`, a non-empty digit run, and `)`. -/

/-- The fixed code→character table `CID_REPLACEMENTS`. -/
def CID_REPLACEMENTS : Dict String String :=
  [("213", "ı"), ("247", "ğ"), ("250", "ş"), ("248", "İ"), ("249", "Ş"),
   ("80", "n"), ("81", "n"), ("85", "z"), ("86", "n"), ("92", "y"),
   ("93", "l"), ("79", "ğ"), ("46", "Ö"), ("36", "Ç"), ("44", "ış"),
   ("56", "Şaf"), ("60", "Y"), ("68", "gü"), ("71", "dır"), ("72", "i"),
   ("76", "İş"), ("78", "kı"), ("3", " ş"), ("246", "Ğ")]

/-- Try to read `cid:<digits>)` at the head of `l` (the part of a match
after its opening parenthesis); on success return the digit code and the
remainder after the closing parenthesis. -/
def matchCid (l : List Char) : Option (List Char × List Char) :=
  if l.take 4 = ['c', 'i', 'd', ':'] then
    if ((l.drop 4).takeWhile Char.isDigit) ≠ [] ∧
        ((l.drop 4).dropWhile Char.isDigit).head? = some ')' then
      some ((l.drop 4).takeWhile Char.isDigit,
        ((l.drop 4).dropWhile Char.isDigit).tail)
    else Option.none
  else Option.none

theorem matchCid_length_lt {l code after : List Char}
    (h : matchCid l = some (code, after)) : after.length < l.length := by
  unfold matchCid at h
  by_cases h4 : l.take 4 = ['c', 'i', 'd', ':']
  · rw [if_pos h4] at h
    by_cases hc : ((l.drop 4).takeWhile Char.isDigit) ≠ [] ∧
        ((l.drop 4).dropWhile Char.isDigit).head? = some ')'
    · rw [if_pos hc] at h
      have hafter : after = ((l.drop 4).dropWhile Char.isDigit).tail := by
        cases h
        rfl
      have hlen4 : 4 ≤ l.length := by
        have := congrArg List.length h4
        simp [List.length_take] at this
        omega
      have hne : ((l.drop 4).dropWhile Char.isDigit) ≠ [] := by
        intro hnil
        rw [hnil] at hc
        exact Option.noConfusion hc.2
      have htail : (((l.drop 4).dropWhile Char.isDigit).tail).length + 1
          = ((l.drop 4).dropWhile Char.isDigit).length := by
        cases hdw : (l.drop 4).dropWhile Char.isDigit with
        | nil => exact absurd hdw hne
        | cons x xs => simp
      have hdrop : ((l.drop 4).dropWhile Char.isDigit).length
          ≤ (l.drop 4).length :=
        (List.dropWhile_sublist Char.isDigit).length_le
      have hdl : (l.drop 4).length = l.length - 4 := List.length_drop 4 l
      rw [hafter]
      omega
    · rw [if_neg hc] at h
      exact Option.noConfusion h
  · rw [if_neg h4] at h
    exact Option.noConfusion h

theorem matchCid_take4 {l code after : List Char}
    (h : matchCid l = some (code, after)) :
    l.take 4 = ['c', 'i', 'd', ':'] := by
  unfold matchCid at h
  by_cases h4 : l.take 4 = ['c', 'i', 'd', ':']
  · exact h4
  · rw [if_neg h4] at h
    exact Option.noConfusion h

/-- The replacement text for a digit code: `CID_REPLACEMENTS.get(code, "")`. -/
def cidRepl (code : List Char) : List Char :=
  ((Dict.get CID_REPLACEMENTS (String.mk code)).getD "").toList

/-- The substitution scan, with fuel (one unit per input character) making
the recursion structural; `scanCid` below always supplies enough fuel. -/
def scanCidFuel : Nat → List Char → List Char
  | 0, l => l
  | _ + 1, [] => []
  | fuel + 1, c :: rest =>
    if c = '(' then
      match matchCid rest with
      | Option.some (code, after) => cidRepl code ++ scanCidFuel fuel after
      | Option.none => '(' :: scanCidFuel fuel rest
    else c :: scanCidFuel fuel rest

theorem scanCidFuel_congr :
    ∀ (f₁ : Nat), ∀ (l : List Char), ∀ (f₂ : Nat),
      l.length ≤ f₁ → l.length ≤ f₂ → scanCidFuel f₁ l = scanCidFuel f₂ l := by
  intro f₁
  induction f₁ with
  | zero =>
    intro l f₂ h₁ _
    have : l = [] := List.eq_nil_of_length_eq_zero (Nat.le_zero.mp h₁)
    subst this
    cases f₂ <;> rfl
  | succ f₁ ih =>
    intro l f₂ h₁ h₂
    cases l with
    | nil => cases f₂ <;> rfl
    | cons c rest =>
      cases f₂ with
      | zero => simp at h₂
      | succ f₂ =>
        simp only [scanCidFuel]
        have hrest₁ : rest.length ≤ f₁ := by
          simp only [List.length_cons] at h₁
          omega
        have hrest₂ : rest.length ≤ f₂ := by
          simp only [List.length_cons] at h₂
          omega
        by_cases hc : c = '('
        · rw [if_pos hc, if_pos hc]
          cases hm : matchCid rest with
          | none => rw [ih rest f₂ hrest₁ hrest₂]
          | some p =>
            obtain ⟨code, after⟩ := p
            have hlt := matchCid_length_lt hm
            dsimp only
            rw [ih after f₂ (by omega) (by omega)]
        · rw [if_neg hc, if_neg hc, ih rest f₂ hrest₁ hrest₂]

/-- The full left-to-right substitution of `CID_PATTERN`. -/
def scanCid (l : List Char) : List Char :=
  scanCidFuel l.length l

/-- `"(cid:" in text` (the function's early-exit guard). -/
def containsCid : List Char → Bool
  | [] => false
  | c :: rest => (c = '(' && (rest.take 4 = ['c', 'i', 'd', ':'])) ||
      containsCid rest

/-- `_replace_cid_sequences`: return the text unchanged when it holds no
`"(cid:"`, else substitute every `(cid:<digits>)` occurrence. -/
def replace_cid_sequences (text : List Char) : List Char :=
  if !containsCid text then text else scanCid text

theorem scanCid_cons (c : Char) (rest : List Char) :
    scanCid (c :: rest) =
      if c = '(' then
        match matchCid rest with
        | Option.some (code, after) => cidRepl code ++ scanCid after
        | Option.none => '(' :: scanCid rest
      else c :: scanCid rest := by
  show scanCidFuel (rest.length + 1) (c :: rest) = _
  simp only [scanCidFuel]
  by_cases hc : c = '('
  · rw [if_pos hc, if_pos hc]
    cases hm : matchCid rest with
    | none => rfl
    | some p =>
      obtain ⟨code, after⟩ := p
      have hlt := matchCid_length_lt hm
      dsimp only
      rw [scanCidFuel_congr rest.length after after.length (by omega)
        (Nat.le_refl _)]
      rfl
  · rw [if_neg hc, if_neg hc]
    rfl

theorem scanCid_of_not_contains (l : List Char)
    (h : containsCid l = false) : scanCid l = l := by
  induction l with
  | nil => rfl
  | cons c rest ih =>
    have hrest : containsCid rest = false := by
      cases hcr : containsCid rest
      · rfl
      · exfalso
        have hT : containsCid (c :: rest) = true := by
          simp [containsCid, hcr]
        rw [h] at hT
        exact Bool.noConfusion hT
    rw [scanCid_cons]
    by_cases hc : c = '('
    · have h4 : rest.take 4 ≠ ['c', 'i', 'd', ':'] := by
        intro hcontr
        have hT : containsCid (c :: rest) = true := by
          simp [containsCid, hc, hcontr]
        rw [h] at hT
        exact Bool.noConfusion hT
      have hm : matchCid rest = Option.none := by
        cases hmm : matchCid rest with
        | none => rfl
        | some p =>
          obtain ⟨code, after⟩ := p
          exact absurd (matchCid_take4 hmm) h4
      rw [if_pos hc, hm, hc, ih hrest]
    · rw [if_neg hc, ih hrest]

theorem take4_cid (tail : List Char) :
    ('c' :: 'i' :: 'd' :: ':' :: tail).take 4 = ['c', 'i', 'd', ':'] := rfl

theorem takeWhile_append_all {α : Type} (p : α → Bool) (l₁ l₂ : List α)
    (h : ∀ x ∈ l₁, p x = true) :
    (l₁ ++ l₂).takeWhile p = l₁ ++ l₂.takeWhile p := by
  induction l₁ with
  | nil => simp
  | cons x xs ih =>
    have hx := h x (List.mem_cons_self x xs)
    simp [List.takeWhile_cons, hx,
      ih (fun y hy => h y (List.mem_cons_of_mem _ hy))]

theorem dropWhile_append_all {α : Type} (p : α → Bool) (l₁ l₂ : List α)
    (h : ∀ x ∈ l₁, p x = true) :
    (l₁ ++ l₂).dropWhile p = l₂.dropWhile p := by
  induction l₁ with
  | nil => simp
  | cons x xs ih =>
    have hx := h x (List.mem_cons_self x xs)
    simp [List.dropWhile_cons, hx,
      ih (fun y hy => h y (List.mem_cons_of_mem _ hy))]

/-- **C5.** CID placeholder repair: a leading `(cid:<code>)` with a
non-empty digit code is consumed and replaced by the table entry for the
code (the empty string — removal — when the code is unmapped), after which
substitution continues on the remainder, so every occurrence in the input
is replaced or removed; in particular `(cid:250)(cid:92)(cid:213)`
resolves to the Turkish characters `ş`, `y`, `ı`, and an unmapped
placeholder such as `(cid:9999)` is removed, not left literally. -/
theorem replace_cid_spec :
    (∀ (code rest : List Char), code ≠ [] →
        (∀ ch ∈ code, ch.isDigit = true) →
        replace_cid_sequences
            ('(' :: 'c' :: 'i' :: 'd' :: ':' :: (code ++ ')' :: rest))
          = cidRepl code ++ replace_cid_sequences rest) ∧
    replace_cid_sequences "(cid:250)(cid:92)(cid:213)".toList
      = "şyı".toList ∧
    replace_cid_sequences "(cid:9999)".toList = [] := by
  refine ⟨?_, by decide, by decide⟩
  intro code rest hne hdig
  have htw : (code ++ ')' :: rest).takeWhile Char.isDigit = code := by
    rw [takeWhile_append_all Char.isDigit code (')' :: rest) hdig]
    simp [List.takeWhile_cons]
  have hdw : (code ++ ')' :: rest).dropWhile Char.isDigit = ')' :: rest := by
    rw [dropWhile_append_all Char.isDigit code (')' :: rest) hdig]
    simp [List.dropWhile_cons]
  have hm : matchCid ('c' :: 'i' :: 'd' :: ':' :: (code ++ ')' :: rest))
      = some (code, rest) := by
    unfold matchCid
    rw [if_pos (take4_cid (code ++ ')' :: rest))]
    simp only [List.drop_succ_cons, List.drop_zero]
    rw [htw, hdw]
    rw [if_pos ⟨hne, rfl⟩]
    rfl
  have hguard : containsCid
      ('(' :: 'c' :: 'i' :: 'd' :: ':' :: (code ++ ')' :: rest)) = true := by
    simp [containsCid]
  rw [show replace_cid_sequences
        ('(' :: 'c' :: 'i' :: 'd' :: ':' :: (code ++ ')' :: rest))
      = scanCid ('(' :: 'c' :: 'i' :: 'd' :: ':' :: (code ++ ')' :: rest))
    from by simp [replace_cid_sequences, hguard]]
  rw [scanCid_cons, if_pos rfl, hm]
  dsimp only
  unfold replace_cid_sequences
  cases hcr : containsCid rest with
  | false => rw [scanCid_of_not_contains rest hcr]; simp [hcr]
  | true => simp [hcr]

/-- Witness for C5: the leading `(cid:92)` of `(cid:92)x` is consumed and
replaced before the rest is processed. -/
theorem replace_cid_spec_witness :
    replace_cid_sequences
        ('(' :: 'c' :: 'i' :: 'd' :: ':' :: ("92".toList ++ ')' :: "x".toList))
      = cidRepl "92".toList ++ replace_cid_sequences "x".toList :=
  replace_cid_spec.1 "92".toList "x".toList (by decide) (by decide)

/-! ## src/etl/steps/normalize.py — date normalization

`_normalize_date` tries `datetime.fromisoformat`, then
`datetime.strptime` with `DATE_FORMATS = ["%Y-%m-%d", "%d.%m.%Y",
"%d/%m/%Y", "%Y/%m/%d"]`, then the bare-year fallback. The library
parsers are modelled on the fragment this pipeline exercises:
`fromisoformat` in its zero-padded calendar-date form `YYYY-MM-DD`
(time-suffixed and basic ISO forms are out of the model), `strptime`'s
`%Y`/`%m`/`%d` fields with their CPython digit patterns (exactly four
digits for `%Y`; one or two digits valued 1–31 resp. 1–12 for `%d`/`%m`),
and the calendar-validity check performed by the `datetime` constructor,
including `MINYEAR = 1`. Digit classes are ASCII. -/

/-- Gregorian leap year, as `calendar`/`datetime` use it. -/
def isLeapYear (y : Nat) : Bool :=
  (y % 4 = 0 && y % 100 ≠ 0) || y % 400 = 0

/-- Days in a month, as validated by the `datetime` constructor. -/
def daysInMonth (y m : Nat) : Nat :=
  if m = 2 then (if isLeapYear y then 29 else 28)
  else if m = 4 || m = 6 || m = 9 || m = 11 then 30
  else 31

/-- A (year, month, day) triple acceptable to `datetime.date`. -/
def dateOk (y m d : Nat) : Bool :=
  1 ≤ y && y ≤ 9999 && 1 ≤ m && m ≤ 12 && 1 ≤ d && d ≤ daysInMonth y m

/-- Numeric value of an ASCII digit run. -/
def digitsVal (s : List Char) : Nat :=
  s.foldl (fun a c => 10 * a + (c.toNat - 48)) 0

/-- Python `str.isdigit` (ASCII fragment). -/
def isdigitStr (s : String) : Bool :=
  s ≠ "" && s.toList.all Char.isDigit

/-- `s.split(sep)` with a one-character separator, keeping empty parts
(Python `str.split` with an explicit separator). -/
def splitOnChar (sep : Char) : List Char → List (List Char)
  | [] => [[]]
  | c :: rest =>
    if c = sep then [] :: splitOnChar sep rest
    else
      match splitOnChar sep rest with
      | [] => [[c]]
      | p :: ps => (c :: p) :: ps

/-- `%d`: one or two ASCII digits valued 1–31 (CPython pattern
`3[01]|[12]\d|0[1-9]|[1-9]`). -/
def strpDay (p : List Char) : Option Nat :=
  if p.all Char.isDigit && (p.length = 1 || p.length = 2) &&
      1 ≤ digitsVal p && digitsVal p ≤ 31 then some (digitsVal p)
  else Option.none

/-- `%m`: one or two ASCII digits valued 1–12 (CPython pattern
`1[0-2]|0[1-9]|[1-9]`). -/
def strpMonth (p : List Char) : Option Nat :=
  if p.all Char.isDigit && (p.length = 1 || p.length = 2) &&
      1 ≤ digitsVal p && digitsVal p ≤ 12 then some (digitsVal p)
  else Option.none

/-- `%Y`: exactly four ASCII digits (CPython pattern `\d\d\d\d`). -/
def strpYear (p : List Char) : Option Nat :=
  if p.all Char.isDigit && p.length = 4 then some (digitsVal p)
  else Option.none

/-- The shapes taken by the entries of `DATE_FORMATS`: year-first or
day-first, around a separator. Since the digit fields cannot contain the
separator, a full-string regex match is equivalent to splitting on the
separator into exactly three field matches. -/
inductive DFmt where
  | ymd (sep : Char)
  | dmy (sep : Char)

/-- `DATE_FORMATS = ["%Y-%m-%d", "%d.%m.%Y", "%d/%m/%Y", "%Y/%m/%d"]`. -/
def DATE_FORMATS : List DFmt :=
  [DFmt.ymd '-', DFmt.dmy '.', DFmt.dmy '/', DFmt.ymd '/']

/-- `datetime.strptime(s, fmt).date()` for the formats above,
`Option.none` modelling the caught `ValueError`. -/
def strptime_date (fmt : DFmt) (s : String) : Option (Nat × Nat × Nat) :=
  match fmt with
  | DFmt.ymd sep =>
    match splitOnChar sep s.toList with
    | [ys, ms, ds] =>
      match strpYear ys, strpMonth ms, strpDay ds with
      | some y, some m, some d =>
        if dateOk y m d then some (y, m, d) else Option.none
      | _, _, _ => Option.none
    | _ => Option.none
  | DFmt.dmy sep =>
    match splitOnChar sep s.toList with
    | [ds, ms, ys] =>
      match strpYear ys, strpMonth ms, strpDay ds with
      | some y, some m, some d =>
        if dateOk y m d then some (y, m, d) else Option.none
      | _, _, _ => Option.none
    | _ => Option.none

/-- `datetime.fromisoformat(s).date()`, modelled on the zero-padded
calendar-date form `YYYY-MM-DD`. -/
def parse_isoformat_date (s : String) : Option (Nat × Nat × Nat) :=
  match s.toList with
  | [y1, y2, y3, y4, '-', m1, m2, '-', d1, d2] =>
    if [y1, y2, y3, y4].all Char.isDigit && [m1, m2].all Char.isDigit &&
        [d1, d2].all Char.isDigit then
      let y := digitsVal [y1, y2, y3, y4]
      let m := digitsVal [m1, m2]
      let d := digitsVal [d1, d2]
      if dateOk y m d then some (y, m, d) else Option.none
    else Option.none
  | _ => Option.none

/-- Zero-padded rendering of a number to at least two digits. -/
def pad2 (n : Nat) : String :=
  if n < 10 then "0" ++ toString n else toString n

/-- Zero-padded rendering of a year to four digits. -/
def pad4 (n : Nat) : String :=
  if n < 10 then "000" ++ toString n
  else if n < 100 then "00" ++ toString n
  else if n < 1000 then "0" ++ toString n
  else toString n

/-- `date.isoformat()`. -/
def date_isoformat (ymd : Nat × Nat × Nat) : String :=
  pad4 ymd.1 ++ "-" ++ pad2 ymd.2.1 ++ "-" ++ pad2 ymd.2.2

/-- The `for fmt in DATE_FORMATS: try ... except ValueError: continue`
loop. -/
def tryFormats : List DFmt → String → Option (Nat × Nat × Nat)
  | [], _ => Option.none
  | f :: fs, s =>
    match strptime_date f s with
    | some ymd => some ymd
    | Option.none => tryFormats fs s

/-- `_normalize_date`. -/
def normalize_date (value : Option String) : Option String :=
  match value with
  | Option.none => Option.none
  | Option.some v₀ =>
    if v₀ = "" then Option.none
    else
      let v := pyStrip v₀
      if v = "" then Option.none
      else
        match parse_isoformat_date v with
        | some ymd => some (date_isoformat ymd)
        | Option.none =>
          match tryFormats DATE_FORMATS v with
          | some ymd => some (date_isoformat ymd)
          | Option.none =>
            if v.length = 4 && isdigitStr v then some (v ++ "-01-01")
            else some v

/-- **C6 counterexample.** The claim as stated fails twice on the code:
a non-ISO value is returned *stripped*, not unchanged (`" x "` becomes
`"x"`), and the extra `%Y-%m-%d` strptime pass (absent from the claim's
format list) parses `"2020-1-2"`, which none of the claim's four listed
formats accept, into `"2020-01-02"` rather than leaving it unchanged. -/
theorem normalize_date_claim_counterexample :
    normalize_date (some " x ") = some "x" ∧ (" x " : String) ≠ "x" ∧
    normalize_date (some "2020-1-2") = some "2020-01-02" ∧
    ("2020-1-2" : String) ≠ "2020-01-02" := by
  refine ⟨by decide, by decide, by decide, by decide⟩

/-- The amended claim's description of the post-strip cascade: the first
success among ISO and the four `DATE_FORMATS` entries, rendered as ISO;
else the bare-year completion; else the stripped value itself. -/
def dateResultSpec (s : String) : String :=
  match (parse_isoformat_date s ::
      DATE_FORMATS.map (fun f => strptime_date f s)).findSome? id with
  | some ymd => date_isoformat ymd
  | Option.none =>
    if s.length = 4 && isdigitStr s then s ++ "-01-01" else s

theorem tryFormats_eq_findSome (fs : List DFmt) (s : String) :
    tryFormats fs s
      = (fs.map (fun f => strptime_date f s)).findSome? id := by
  induction fs with
  | nil => rfl
  | cons f fs ih =>
    simp only [tryFormats, List.map_cons, List.findSome?_cons]
    cases strptime_date f s with
    | none => exact ih
    | some ymd => rfl

/-- **C6 (amended).** Date normalization first strips the value (`None`
and empty or whitespace-only strings normalize to `None`); a stripped
value is parsed by the first succeeding format among ISO `yyyy-mm-dd` and
the strptime formats `yyyy-mm-dd`, `dd.mm.yyyy`, `dd/mm/yyyy`,
`yyyy/mm/dd` in that order and rendered as zero-padded ISO; a bare
4-digit year yields `year-01-01`; any other stripped value is returned
stripped. -/
theorem normalize_date_amended_spec (v : String) :
    normalize_date Option.none = Option.none ∧
    normalize_date (some v)
      = (if pyStrip v = "" then Option.none
         else some (dateResultSpec (pyStrip v))) := by
  refine ⟨rfl, ?_⟩
  by_cases h0 : v = ""
  · subst h0
    rfl
  · simp only [normalize_date, if_neg h0]
    by_cases hs : pyStrip v = ""
    · simp [hs]
    · simp only [if_neg hs]
      unfold dateResultSpec
      rw [List.findSome?_cons]
      cases parse_isoformat_date (pyStrip v) with
      | some ymd => rfl
      | none =>
        simp only [id_eq, Option.getD_none]
        rw [← tryFormats_eq_findSome]
        cases tryFormats DATE_FORMATS (pyStrip v) with
        | some ymd => rfl
        | none =>
          dsimp only
          by_cases h4 :
              (decide ((pyStrip v).length = 4) && isdigitStr (pyStrip v))
                = true
          · rw [if_pos h4, if_pos h4]
          · rw [if_neg h4, if_neg h4]

/-! ## src/crawler/crawlers/pdf_poems.py — title detection

Character classes model Python's Unicode predicates on the alphabet this
repository handles: ASCII plus the Turkish letters. The upper-case-ratio
test `upper_ratio >= 0.65` is a binary-float comparison in Python; since
the candidate line has at most 60 letters, the nearest fraction `n/d`
below `0.65` with `d ≤ 60` is at distance `≥ 1/1200` from `0.65`, far
beyond the float rounding error, so the exact rational comparison
`65 * d ≤ 100 * n` coincides with it. -/

/-- Upper-case Turkish letters occurring in this repository's data. -/
def TURKISH_UPPER : List Char := ['Ç', 'Ğ', 'İ', 'Ö', 'Ş', 'Ü']

/-- Lower-case Turkish letters occurring in this repository's data. -/
def TURKISH_LOWER : List Char := ['ç', 'ğ', 'ı', 'ö', 'ş', 'ü']

/-- Python `str.isupper` on one character (model alphabet). -/
def pyIsUpper (c : Char) : Bool := c.isUpper || c ∈ TURKISH_UPPER

/-- Python `str.islower` on one character (model alphabet). -/
def pyIsLower (c : Char) : Bool := c.isLower || c ∈ TURKISH_LOWER

/-- Python `str.isalpha` on one character (model alphabet). -/
def pyIsAlpha (c : Char) : Bool := pyIsUpper c || pyIsLower c

/-- Python `str.isupper` on a string: at least one cased character and no
lower-case one. -/
def pyStrIsUpper (s : List Char) : Bool :=
  s.any pyIsAlpha && s.all (fun c => !pyIsLower c)

/-- State walk behind Python `str.istitle`: upper-case letters may only
follow uncased characters, lower-case letters only cased ones, and at
least one cased character must occur. -/
def pyIsTitleAux : List Char → Bool → Bool → Bool
  | [], _, found => found
  | c :: rest, prevCased, found =>
    if pyIsUpper c then
      if prevCased then false else pyIsTitleAux rest true true
    else if pyIsLower c then
      if prevCased then pyIsTitleAux rest true true else false
    else pyIsTitleAux rest false found

/-- Python `str.istitle`. -/
def pyIsTitle (s : List Char) : Bool := pyIsTitleAux s false false

/-- Word accumulation behind Python `str.split()` (no separator: split on
whitespace runs, no empty words). -/
def splitWSAux : List Char → List Char → List (List Char)
  | [], acc => if acc.isEmpty then [] else [acc.reverse]
  | c :: rest, acc =>
    if pyIsSpace c then
      if acc.isEmpty then splitWSAux rest []
      else acc.reverse :: splitWSAux rest []
    else splitWSAux rest (c :: acc)

/-- Python `str.split()`. -/
def splitWS (s : List Char) : List (List Char) := splitWSAux s []

/-- The punctuation set `",.;:!?"` counted by `_is_title_candidate`. -/
def isPunct (c : Char) : Bool :=
  c ∈ ([',', '.', ';', ':', '!', '?'] : List Char)

/-- `PdfPoemsCrawler._next_non_empty_line`. -/
def next_non_empty_line (lines : List (List Char)) (idx : Nat) :
    Option (List Char) :=
  (lines.drop (idx + 1)).find? (fun l => !(pyStripL l).isEmpty)

/-- `PdfPoemsCrawler._is_title_candidate` (the locals `stripped` and
`letters` are inlined as `pyStripL line` and its `pyIsAlpha` filter). -/
def is_title_candidate (line : List Char) (lines : List (List Char))
    (idx : Nat) : Bool :=
  if !(3 ≤ (pyStripL line).length && (pyStripL line).length ≤ 60) then false
  else
    match next_non_empty_line lines idx with
    | Option.none => false
    | Option.some nxt =>
      if nxt.isEmpty then false
      else
        if ((pyStripL line).filter pyIsAlpha).isEmpty then false
        else
          if ((pyStripL line).filter isPunct).length
              > max 2 ((pyStripL line).length / 3) then false
          else
            pyStrIsUpper (pyStripL line) ||
              decide (65 * ((pyStripL line).filter pyIsAlpha).length
                ≤ 100 * (((pyStripL line).filter pyIsAlpha).filter
                    pyIsUpper).length) ||
              pyIsTitle (pyStripL line) ||
              (splitWS (pyStripL line)).all (fun w =>
                match w with
                | [] => true
                | ch :: _ => if pyIsAlpha ch then pyIsUpper ch else true)

/-- The per-index classification inside
`PdfPoemsCrawler._detect_title_indices`: the line exists, is non-blank, is
at the start or preceded by a blank line, and passes
`_is_title_candidate`. -/
def detect_title_at (lines : List (List Char)) (idx : Nat) : Bool :=
  match lines.get? idx with
  | Option.none => false
  | Option.some line =>
    if (pyStripL line).isEmpty then false
    else if idx > 0 && !(pyStripL (lines.getD (idx - 1) [])).isEmpty then
      false
    else is_title_candidate line lines idx

/-- `PdfPoemsCrawler._detect_title_indices`. -/
def detect_title_indices (lines : List (List Char)) : List Nat :=
  (List.range lines.length).filter (fun idx => detect_title_at lines idx)

/-- The title-candidate conditions exactly as the claim words them, with
`more punctuation marks than one-third of its length` read as the exact
comparison `punct > length / 3` and `every word starts with an upper-case
letter` applied to every word. -/
def claimTitleCandidate (lines : List (List Char)) (idx : Nat) : Bool :=
  match lines.get? idx with
  | Option.none => false
  | Option.some line =>
    !(pyStripL line).isEmpty &&
    (decide (idx = 0) || (pyStripL (lines.getD (idx - 1) [])).isEmpty) &&
    (3 ≤ (pyStripL line).length && (pyStripL line).length ≤ 60) &&
    (lines.drop (idx + 1)).any (fun l => !(pyStripL l).isEmpty) &&
    (pyStripL line).any pyIsAlpha &&
    (pyStrIsUpper (pyStripL line) ||
      decide (65 * ((pyStripL line).filter pyIsAlpha).length
        ≤ 100 * (((pyStripL line).filter pyIsAlpha).filter
            pyIsUpper).length) ||
      pyIsTitle (pyStripL line) ||
      (splitWS (pyStripL line)).all (fun w => pyIsUpper (w.headD ' '))) &&
    !decide (3 * ((pyStripL line).filter isPunct).length
      > (pyStripL line).length)

/-- **C3 counterexample.** The line `A,.` before a non-empty line is a
title candidate for the code (its two punctuation marks do not exceed the
code's threshold `max(2, 3 // 3) = 2`, and the line is fully upper-case)
but not under the claim's wording, which rejects it for carrying more
punctuation marks than one-third of its length (`2 > 1`). -/
theorem title_candidate_claim_counterexample :
    detect_title_at [['A', ',', '.'], ['o', 'k']] 0 = true ∧
    claimTitleCandidate [['A', ',', '.'], ['o', 'k']] 0 = false := by
  refine ⟨by decide, by decide⟩

/-- The amended title-candidate conditions: the punctuation rejection uses
the code's threshold `max(2, ⌊length / 3⌋)` over the marks `,.;:!?`, and
the every-word-capitalized test only inspects words whose first character
is a letter. -/
def amendedTitleCandidate (lines : List (List Char)) (idx : Nat) : Bool :=
  match lines.get? idx with
  | Option.none => false
  | Option.some line =>
    !(pyStripL line).isEmpty &&
    (decide (idx = 0) || (pyStripL (lines.getD (idx - 1) [])).isEmpty) &&
    (3 ≤ (pyStripL line).length && (pyStripL line).length ≤ 60) &&
    (lines.drop (idx + 1)).any (fun l => !(pyStripL l).isEmpty) &&
    (pyStripL line).any pyIsAlpha &&
    !decide (((pyStripL line).filter isPunct).length
      > max 2 ((pyStripL line).length / 3)) &&
    (pyStrIsUpper (pyStripL line) ||
      decide (65 * ((pyStripL line).filter pyIsAlpha).length
        ≤ 100 * (((pyStripL line).filter pyIsAlpha).filter
            pyIsUpper).length) ||
      pyIsTitle (pyStripL line) ||
      (splitWS (pyStripL line)).all (fun w =>
        !pyIsAlpha (w.headD ' ') || pyIsUpper (w.headD ' ')))

theorem if_false_eq_and (c x : Bool) : (if c then false else x) = (!c && x) := by
  cases c <;> simp

theorem if_false_eq_and_prop (P : Prop) [Decidable P] (x : Bool) :
    (if P then false else x) = (!decide P && x) := by
  by_cases h : P <;> simp [h]

theorem filter_isEmpty_eq (p : Char → Bool) (l : List Char) :
    (l.filter p).isEmpty = !l.any p := by
  induction l with
  | nil => rfl
  | cons c t ih =>
    cases hp : p c <;> simp [List.filter_cons, hp, List.any_cons, ih]

theorem capword_fun_eq :
    (fun w : List Char =>
      match w with
      | [] => true
      | ch :: _ => if pyIsAlpha ch then pyIsUpper ch else true)
    = (fun w : List Char =>
        !pyIsAlpha (w.headD ' ') || pyIsUpper (w.headD ' ')) := by
  funext w
  cases w with
  | nil => decide
  | cons ch t =>
    show (if pyIsAlpha ch then pyIsUpper ch else true) = _
    cases ha : pyIsAlpha ch <;> simp [ha]

theorem match_next_eq (lines : List (List Char)) (idx : Nat) (rest : Bool) :
    (match next_non_empty_line lines idx with
     | Option.none => false
     | Option.some nxt => if nxt.isEmpty then false else rest)
    = ((lines.drop (idx + 1)).any (fun l => !(pyStripL l).isEmpty) && rest)
    := by
  unfold next_non_empty_line
  cases hf : (lines.drop (idx + 1)).find? (fun l => !(pyStripL l).isEmpty)
    with
  | none =>
    have hnone := List.find?_eq_none.mp hf
    have hany : (lines.drop (idx + 1)).any (fun l => !(pyStripL l).isEmpty)
        = false := by
      rw [← Bool.not_eq_true, List.any_eq_true]
      rintro ⟨x, hx, hpx⟩
      exact hnone x hx hpx
    simp [hany]
  | some nxt =>
    have hp0 := List.find?_some hf
    have hp : (!(pyStripL nxt).isEmpty) = true := by simpa using hp0
    have hne : nxt.isEmpty = false := by
      cases hnx : nxt with
      | nil =>
        rw [hnx] at hp
        exact absurd hp (by decide)
      | cons a t => simp
    have hany : (lines.drop (idx + 1)).any (fun l => !(pyStripL l).isEmpty)
        = true :=
      List.any_eq_true.mpr ⟨nxt, List.mem_of_find?_eq_some hf, hp⟩
    simp [hne, hany]

theorem is_title_candidate_eq (line : List Char) (lines : List (List Char))
    (idx : Nat) :
    is_title_candidate line lines idx
    = ((3 ≤ (pyStripL line).length && (pyStripL line).length ≤ 60) &&
       ((lines.drop (idx + 1)).any (fun l => !(pyStripL l).isEmpty) &&
        ((pyStripL line).any pyIsAlpha &&
         (!decide (((pyStripL line).filter isPunct).length
             > max 2 ((pyStripL line).length / 3)) &&
          (pyStrIsUpper (pyStripL line) ||
            decide (65 * ((pyStripL line).filter pyIsAlpha).length
              ≤ 100 * (((pyStripL line).filter pyIsAlpha).filter
                  pyIsUpper).length) ||
            pyIsTitle (pyStripL line) ||
            (splitWS (pyStripL line)).all (fun w =>
              !pyIsAlpha (w.headD ' ') || pyIsUpper (w.headD ' '))))))) := by
  unfold is_title_candidate
  rw [if_false_eq_and, Bool.not_not, match_next_eq, if_false_eq_and,
    if_false_eq_and_prop, filter_isEmpty_eq, Bool.not_not, capword_fun_eq]

/-- **C3 (amended).** A line is classified as a title candidate exactly
when: it exists, is non-blank, sits at the document start or after a blank
line, its stripped length is between 3 and 60, some non-empty line follows
it, it contains a letter, it is not rejected for carrying more marks from
`,.;:!?` than `max(2, ⌊length / 3⌋)`, and it is fully upper-case, or at
least 65% of its letters are upper-case, or it is title-case, or every
word whose first character is a letter starts with an upper-case one. -/
theorem detect_title_amended_spec (lines : List (List Char)) (idx : Nat) :
    detect_title_at lines idx = amendedTitleCandidate lines idx := by
  unfold detect_title_at amendedTitleCandidate
  cases hget : lines.get? idx with
  | none => rfl
  | some line =>
    dsimp only
    cases hemp : (pyStripL line).isEmpty with
    | true => simp [hemp]
    | false =>
      rw [if_neg (by simp [hemp])]
      cases hprev : (idx > 0 && !(pyStripL (lines.getD (idx - 1) [])).isEmpty)
        with
      | true =>
        rw [if_pos rfl]
        have hidx : decide (idx > 0) = true := by
          cases hgt : decide (idx > 0)
          · rw [hgt] at hprev
            simp at hprev
          · rfl
        have h1 : (pyStripL (lines.getD (idx - 1) [])).isEmpty = false := by
          cases hb : (pyStripL (lines.getD (idx - 1) [])).isEmpty
          · rfl
          · rw [hb] at hprev
            simp at hprev
        have h0 : decide (idx = 0) = false := by
          simp only [decide_eq_true_eq] at hidx
          simp
          omega
        rw [h0, h1]
        simp only [Bool.or_self, Bool.not_false, Bool.true_and,
          Bool.false_and, Bool.and_false]
      | false =>
        rw [if_neg (by simp)]
        have hsecond : (decide (idx = 0) ||
            (pyStripL (lines.getD (idx - 1) [])).isEmpty) = true := by
          cases hi : decide (idx = 0) with
          | true => simp
          | false =>
            cases hb : (pyStripL (lines.getD (idx - 1) [])).isEmpty with
            | true => simp
            | false =>
              exfalso
              have hgt : decide (idx > 0) = true := by
                have hidx0 : ¬(idx = 0) := by simpa using hi
                simp
                omega
              rw [hgt, hb] at hprev
              simp at hprev
        rw [is_title_candidate_eq, hsecond]
        simp only [Bool.not_false, Bool.true_and, Bool.and_assoc]

/-! ## src/etl/steps/store.py and src/domain/documents.py — store stage

`store_records` upserts each validated document into a MongoDB collection.
The store becomes explicit state: an association list from a key — the
target collection together with the equality filter produced by
`NoSQLBaseDocument.upsert_filter` — to the stored document. Mongo's
`update_one(filter, {"$set": s, "$setOnInsert": i}, upsert=True)` on an
equality filter is modelled from its documented semantics: the first
matching document has the `$set` fields written over it, and when none
matches a new document is built from the filter's equality fields, the
`$set` fields and the `$setOnInsert` fields, reporting an `upserted_id`. -/

/-- A store key: the target collection plus the `upsert_filter` values for
`kind` and `source_id`. -/
abbrev StoreKey := String × Option PyVal × Option PyVal

/-- The persistent store, one association list across all collections. -/
abbrev MongoStore := List (StoreKey × Record)

/-- A validated ODM document presented to the store stage: its `data`
mapping and its class's `collection_name`. -/
structure ODoc where
  data : Record
  collection_name : String

/-- `NoSQLBaseDocument.upsert_filter`: the document's `kind` and
`source_id` values (validation guarantees both are present and truthy). -/
def upsert_filter (data : Record) : Option PyVal × Option PyVal :=
  (Dict.get data "kind", Dict.get data "source_id")

/-- `NoSQLBaseDocument.to_mongo`: a copy of `data` with `updated_at`
refreshed to the current timestamp. -/
def to_mongo (data : Record) (now : String) : Record :=
  Dict.set data "updated_at" (PyVal.str now)

/-- The collection targeted by a document
(`document.collection_name or collection`) paired with its filter. -/
def docKey (defaultColl : String) (d : ODoc) : StoreKey :=
  (if d.collection_name = "" then defaultColl else d.collection_name,
   upsert_filter d.data)

/-- `$set`: write every given field over the document. -/
def applySet (doc : Record) (setDoc : Record) : Record :=
  setDoc.foldl (fun d kv => Dict.set d kv.1 kv.2) doc

/-- Does any stored document match the key? -/
def hasKey (st : MongoStore) (key : StoreKey) : Bool :=
  st.any (fun e => e.1 = key)

/-- Apply `$set` to the first document matching the key. -/
def updateFirst (st : MongoStore) (key : StoreKey) (setDoc : Record) :
    MongoStore :=
  match st with
  | [] => []
  | e :: rest =>
    if e.1 = key then (e.1, applySet e.2 setDoc) :: rest
    else e :: updateFirst rest key setDoc

/-- The document seeded from the filter's equality fields on upsert. -/
def baseDoc (key : StoreKey) : Record :=
  (match key.2.1 with
   | Option.some v => [("kind", v)]
   | Option.none => []) ++
  (match key.2.2 with
   | Option.some v => [("source_id", v)]
   | Option.none => [])

/-- Modelled from MongoDB semantics: `update_one` with `upsert=True`; the
returned flag is whether an `upserted_id` was reported. -/
def update_one_upsert (st : MongoStore) (key : StoreKey)
    (setDoc setOnInsert : Record) : MongoStore × Bool :=
  if hasKey st key then (updateFirst st key setDoc, false)
  else (st ++ [(key, applySet (applySet (baseDoc key) setDoc) setOnInsert)],
    true)

/-- The `$setOnInsert` document built by `store_records`: it carries
`created_at` only when the popped value is truthy. -/
def setOnInsertDoc (payload : Record) : Record :=
  match Dict.get payload "created_at" with
  | Option.some v => if v.truthy then [("created_at", v)] else []
  | Option.none => []

/-- `payload.pop("created_at", None)`: the payload without its
`created_at` binding. -/
def popCreated (payload : Record) : Record :=
  payload.filter (fun kv => kv.1 ≠ "created_at")

/-- One iteration of the loop in `store_records`. -/
def store_step (defaultColl : String) (now : String)
    (acc : MongoStore × Nat) (d : ODoc) : MongoStore × Nat :=
  match update_one_upsert acc.1 (docKey defaultColl d)
      (popCreated (to_mongo d.data now))
      (setOnInsertDoc (to_mongo d.data now)) with
  | (st', upserted) => (st', acc.2 + if upserted then 1 else 0)

/-- `store_records`: upsert every document, returning the new store and
the inserted count. -/
def store_records (records : List ODoc) (defaultColl : String)
    (now : String) (st : MongoStore) : MongoStore × Nat :=
  records.foldl (store_step defaultColl now) (st, 0)

/-- The first stored document matching a key. -/
def storeDoc (st : MongoStore) (key : StoreKey) : Option Record :=
  (st.find? (fun e => e.1 = key)).map (·.2)

/-- The `created_at` field of the stored document at a key. -/
def storeCreated (st : MongoStore) (key : StoreKey) :
    Option (Option PyVal) :=
  (storeDoc st key).map (fun doc => Dict.get doc "created_at")

/-- Keys of a record bound at most once. -/
def keysNodup (r : Record) : Prop := (r.map Prod.fst).Nodup

theorem applySet_get_of_not_mem (d s : Record) (c : String)
    (h : ∀ kv ∈ s, kv.1 ≠ c) :
    Dict.get (applySet d s) c = Dict.get d c := by
  induction s generalizing d with
  | nil => rfl
  | cons kv rest ih =>
    show Dict.get (applySet (Dict.set d kv.1 kv.2) rest) c = _
    rw [ih (Dict.set d kv.1 kv.2)
      (fun x hx => h x (List.mem_cons_of_mem _ hx))]
    exact Dict.get_set_other d kv.1 c kv.2
      (Ne.symm (h kv (List.mem_cons_self kv rest)))

theorem applySet_get_of_mem (d : Record) (s : Record) (c : String)
    (v : PyVal) (hnd : (s.map Prod.fst).Nodup) (hmem : (c, v) ∈ s) :
    Dict.get (applySet d s) c = some v := by
  induction s generalizing d with
  | nil => cases hmem
  | cons kv rest ih =>
    rcases List.mem_cons.mp hmem with heq | hmem'
    · have h1 : kv.1 = c := by rw [← heq]
      have h2 : kv.2 = v := by rw [← heq]
      have hnotin : ∀ x ∈ rest, x.1 ≠ c := by
        intro x hx hxc
        have : kv.1 ∈ rest.map Prod.fst := by
          rw [h1, ← hxc]
          exact List.mem_map_of_mem Prod.fst hx
        rw [List.map_cons] at hnd
        exact (List.nodup_cons.mp hnd).1 this
      show Dict.get (applySet (Dict.set d kv.1 kv.2) rest) c = some v
      rw [applySet_get_of_not_mem _ _ _ hnotin, h1, h2, Dict.get_set_same]
    · rw [List.map_cons] at hnd
      exact ih (Dict.set d kv.1 kv.2) (List.nodup_cons.mp hnd).2 hmem'

theorem keysNodup_filter (r : Record) (p : String × PyVal → Bool)
    (h : keysNodup r) : keysNodup (r.filter p) := by
  unfold keysNodup at *
  exact h.sublist ((List.filter_sublist r).map Prod.fst)

theorem keysNodup_set (r : Record) (k : String) (v : PyVal)
    (h : keysNodup r) : keysNodup (Dict.set r k v) := by
  unfold keysNodup Dict.set
  rw [List.map_append]
  apply List.Nodup.append
  · exact keysNodup_filter r _ h
  · simp
  · intro a ha hb
    simp only [List.map_cons, List.map_nil, List.mem_singleton] at hb
    subst hb
    obtain ⟨kv, hkv, hfst⟩ := List.mem_map.mp ha
    have := (List.mem_filter.mp hkv).2
    rw [hfst] at this
    simp at this

theorem popCreated_no_created (payload : Record) :
    ∀ kv ∈ popCreated payload, kv.1 ≠ "created_at" := by
  intro kv hkv
  have := (List.mem_filter.mp hkv).2
  simpa using this

theorem Dict.get_mem {κ β : Type} [DecidableEq κ] (r : Dict κ β) (k : κ)
    (v : β) (h : Dict.get r k = some v) : (k, v) ∈ r := by
  unfold Dict.get at h
  cases hf : r.find? (fun kv => kv.1 = k) with
  | none =>
    rw [hf] at h
    cases h
  | some e =>
    rw [hf] at h
    have hm := List.mem_of_find?_eq_some hf
    have hp := List.find?_some hf
    have h1 : e.1 = k := by simpa using hp
    have h2 : e.2 = v := by simpa using h
    have he : e = (k, v) := Prod.ext h1 h2
    rw [← he]
    exact hm

theorem hasKey_updateFirst (st : MongoStore) (key key' : StoreKey)
    (s : Record) : hasKey (updateFirst st key s) key' = hasKey st key' := by
  induction st with
  | nil => rfl
  | cons e rest ih =>
    unfold updateFirst
    by_cases he : e.1 = key
    · rw [if_pos he]
      rfl
    · rw [if_neg he]
      unfold hasKey at ih ⊢
      simp only [List.any_cons]
      rw [ih]

theorem storeDoc_updateFirst_same (st : MongoStore) (key : StoreKey)
    (s : Record) (h : hasKey st key = true) :
    storeDoc (updateFirst st key s) key
      = (storeDoc st key).map (fun d => applySet d s) := by
  induction st with
  | nil => simp [hasKey] at h
  | cons e rest ih =>
    by_cases he : e.1 = key
    · unfold updateFirst storeDoc
      rw [if_pos he]
      rw [List.find?_cons_of_pos _ (by simpa using he),
        List.find?_cons_of_pos _ (by simpa using he)]
      rfl
    · unfold updateFirst storeDoc
      rw [if_neg he]
      rw [List.find?_cons_of_neg _ (by simpa using he),
        List.find?_cons_of_neg _ (by simpa using he)]
      apply ih
      simpa [hasKey, List.any_cons, he] using h

theorem storeDoc_updateFirst_other (st : MongoStore) (key key' : StoreKey)
    (s : Record) (h : key' ≠ key) :
    storeDoc (updateFirst st key s) key' = storeDoc st key' := by
  induction st with
  | nil => rfl
  | cons e rest ih =>
    by_cases he : e.1 = key
    · unfold updateFirst storeDoc
      rw [if_pos he]
      have hne : ¬(e.1 = key') := by
        rw [he]
        exact Ne.symm h
      rw [List.find?_cons_of_neg _ (by simpa using hne),
        List.find?_cons_of_neg _ (by simpa using hne)]
    · unfold updateFirst storeDoc
      rw [if_neg he]
      by_cases he' : e.1 = key'
      · rw [List.find?_cons_of_pos _ (by simpa using he'),
          List.find?_cons_of_pos _ (by simpa using he')]
      · rw [List.find?_cons_of_neg _ (by simpa using he'),
          List.find?_cons_of_neg _ (by simpa using he')]
        exact ih

theorem storeDoc_append_of_hasKey (st l : MongoStore) (key : StoreKey)
    (h : hasKey st key = true) :
    storeDoc (st ++ l) key = storeDoc st key := by
  unfold storeDoc
  rw [List.find?_append]
  obtain ⟨e, he, hp⟩ := List.any_eq_true.mp h
  cases hf : st.find? (fun e => e.1 = key) with
  | none => exact absurd hp (by simpa using List.find?_eq_none.mp hf e he)
  | some x => simp

theorem hasKey_append (st l : MongoStore) (key : StoreKey) :
    hasKey (st ++ l) key = (hasKey st key || hasKey l key) := by
  simp [hasKey, List.any_append]

theorem store_step_fst (dc now : String) (acc : MongoStore × Nat)
    (d : ODoc) :
    (store_step dc now acc d).1
      = (update_one_upsert acc.1 (docKey dc d)
          (popCreated (to_mongo d.data now))
          (setOnInsertDoc (to_mongo d.data now))).1 := rfl

theorem storeCreated_step (dc now : String) (acc : MongoStore × Nat)
    (d : ODoc) (key : StoreKey) (h : hasKey acc.1 key = true) :
    storeCreated (store_step dc now acc d).1 key
      = storeCreated acc.1 key := by
  rw [store_step_fst]
  unfold update_one_upsert
  by_cases hk : hasKey acc.1 (docKey dc d) = true
  · rw [if_pos hk]
    by_cases heq : key = docKey dc d
    · subst heq
      unfold storeCreated
      rw [storeDoc_updateFirst_same _ _ _ hk]
      cases storeDoc acc.1 (docKey dc d) with
      | none => rfl
      | some doc0 =>
        show some (Dict.get (applySet doc0
            (popCreated (to_mongo d.data now))) "created_at")
          = some (Dict.get doc0 "created_at")
        rw [applySet_get_of_not_mem _ _ _ (popCreated_no_created _)]
    · unfold storeCreated
      rw [storeDoc_updateFirst_other _ _ _ _ heq]
  · rw [if_neg hk]
    unfold storeCreated
    rw [storeDoc_append_of_hasKey _ _ _ h]

theorem hasKey_step_mono (dc now : String) (acc : MongoStore × Nat)
    (d : ODoc) (key : StoreKey) (h : hasKey acc.1 key = true) :
    hasKey (store_step dc now acc d).1 key = true := by
  rw [store_step_fst]
  unfold update_one_upsert
  by_cases hk : hasKey acc.1 (docKey dc d) = true
  · rw [if_pos hk, hasKey_updateFirst]
    exact h
  · rw [if_neg hk, hasKey_append]
    simp [h]

theorem hasKey_step_self (dc now : String) (acc : MongoStore × Nat)
    (d : ODoc) :
    hasKey (store_step dc now acc d).1 (docKey dc d) = true := by
  rw [store_step_fst]
  unfold update_one_upsert
  by_cases hk : hasKey acc.1 (docKey dc d) = true
  · rw [if_pos hk, hasKey_updateFirst]
    exact hk
  · rw [if_neg hk, hasKey_append]
    simp [hasKey]

theorem hasKey_fold_mono (dc now : String) :
    ∀ (docs : List ODoc) (acc : MongoStore × Nat) (key : StoreKey),
      hasKey acc.1 key = true →
      hasKey (docs.foldl (store_step dc now) acc).1 key = true := by
  intro docs
  induction docs with
  | nil => intro acc key h; exact h
  | cons d rest ih =>
    intro acc key h
    exact ih _ key (hasKey_step_mono dc now acc d key h)

theorem hasKey_after_run (dc now : String) :
    ∀ (docs : List ODoc) (acc : MongoStore × Nat) (d₀ : ODoc),
      d₀ ∈ docs →
      hasKey (docs.foldl (store_step dc now) acc).1 (docKey dc d₀)
        = true := by
  intro docs
  induction docs with
  | nil => intro acc d₀ h; cases h
  | cons d rest ih =>
    intro acc d₀ h
    rcases List.mem_cons.mp h with rfl | h'
    · exact hasKey_fold_mono dc now rest _ _ (hasKey_step_self dc now acc d₀)
    · exact ih _ d₀ h'

theorem storeCreated_fold (dc now : String) :
    ∀ (docs : List ODoc) (acc : MongoStore × Nat) (key : StoreKey),
      hasKey acc.1 key = true →
      storeCreated (docs.foldl (store_step dc now) acc).1 key
        = storeCreated acc.1 key := by
  intro docs
  induction docs with
  | nil => intro acc key h; rfl
  | cons d rest ih =>
    intro acc key h
    rw [List.foldl_cons,
      ih (store_step dc now acc d) key (hasKey_step_mono dc now acc d key h),
      storeCreated_step dc now acc d key h]

theorem count_zero_of_all_present (dc now : String) :
    ∀ (docs : List ODoc) (st : MongoStore) (n : Nat),
      (∀ d ∈ docs, hasKey st (docKey dc d) = true) →
      (docs.foldl (store_step dc now) (st, n)).2 = n := by
  intro docs
  induction docs with
  | nil => intro st n _; rfl
  | cons d rest ih =>
    intro st n h
    have hd := h d (List.mem_cons_self d rest)
    have hstep : store_step dc now (st, n) d
        = (updateFirst st (docKey dc d)
            (popCreated (to_mongo d.data now)), n) := by
      unfold store_step update_one_upsert
      rw [if_pos hd]
      simp
    rw [List.foldl_cons, hstep]
    apply ih
    intro d' hd'
    rw [hasKey_updateFirst]
    exact h d' (List.mem_cons_of_mem d hd')

/-- **C1.** Store stage, keyed on the collection and the
`(kind, source_id)` upsert filter: (1) a first insert fixes `created_at`
to the document's (truthy) value, via `$setOnInsert`; (2) a whole batch of
writes never changes the `created_at` of any already-stored key —
`created_at` is popped from the `$set` payload, so it is set exactly once;
(3) an update overwrites every other field carried by the payload,
`updated_at` included (`to_mongo` refreshes it before the write); (4)
applying the same batch a second time reports an inserted count of 0. -/
theorem store_records_spec :
    (∀ (dc now : String) (st : MongoStore) (d : ODoc) (c : PyVal),
        hasKey st (docKey dc d) = false →
        Dict.get d.data "created_at" = some c → c.truthy = true →
        storeCreated (store_records [d] dc now st).1 (docKey dc d)
          = some (some c)) ∧
    (∀ (dc now : String) (st : MongoStore) (docs : List ODoc)
        (key : StoreKey), hasKey st key = true →
        storeCreated (store_records docs dc now st).1 key
          = storeCreated st key) ∧
    (∀ (dc now : String) (st : MongoStore) (d : ODoc),
        hasKey st (docKey dc d) = true → keysNodup d.data →
        ∀ (k : String) (v : PyVal), k ≠ "created_at" →
          Dict.get (to_mongo d.data now) k = some v →
          ∃ newdoc,
            storeDoc (store_records [d] dc now st).1 (docKey dc d)
              = some newdoc ∧ Dict.get newdoc k = some v) ∧
    (∀ (dc now : String) (st : MongoStore) (docs : List ODoc),
        (store_records docs dc now (store_records docs dc now st).1).2
          = 0) := by
  refine ⟨?_, ?_, ?_, ?_⟩
  · intro dc now st d c hk hc htr
    unfold store_records
    simp only [List.foldl_cons, List.foldl_nil]
    rw [store_step_fst]
    unfold update_one_upsert
    rw [if_neg (by simpa using hk)]
    have hf : st.find? (fun e => e.1 = docKey dc d) = Option.none := by
      rw [List.find?_eq_none]
      intro x hx hpx
      have : hasKey st (docKey dc d) = true :=
        List.any_eq_true.mpr ⟨x, hx, hpx⟩
      rw [this] at hk
      exact Bool.noConfusion hk
    unfold storeCreated storeDoc
    rw [List.find?_append, hf]
    rw [List.find?_cons_of_pos _ (by simp)]
    have hget_c : Dict.get (to_mongo d.data now) "created_at" = some c := by
      unfold to_mongo
      rw [Dict.get_set_other _ _ _ _ (by decide)]
      exact hc
    have hsoi : setOnInsertDoc (to_mongo d.data now)
        = [("created_at", c)] := by
      unfold setOnInsertDoc
      rw [hget_c]
      simp [htr]
    simp only [Option.none_or, Option.map_some]
    rw [hsoi]
    show some (Dict.get (Dict.set _ "created_at" c) "created_at")
      = some (some c)
    rw [Dict.get_set_same]
  · intro dc now st docs key h
    unfold store_records
    exact storeCreated_fold dc now docs (st, 0) key h
  · intro dc now st d hk hnd k v hkc hv
    unfold store_records
    simp only [List.foldl_cons, List.foldl_nil]
    rw [store_step_fst]
    unfold update_one_upsert
    rw [if_pos (by simpa using hk)]
    rw [storeDoc_updateFirst_same _ _ _ hk]
    obtain ⟨e, he, hp⟩ := List.any_eq_true.mp hk
    have hsome : ∃ old, storeDoc st (docKey dc d) = some old := by
      unfold storeDoc
      cases hf : st.find? (fun e => e.1 = docKey dc d) with
      | none =>
        exact absurd hp (by simpa using List.find?_eq_none.mp hf e he)
      | some x => exact ⟨x.2, rfl⟩
    obtain ⟨old, hold⟩ := hsome
    rw [hold]
    refine ⟨applySet old (popCreated (to_mongo d.data now)), rfl, ?_⟩
    apply applySet_get_of_mem
    · exact keysNodup_filter _ _ (keysNodup_set _ _ _ hnd)
    · apply List.mem_filter.mpr
      exact ⟨Dict.get_mem _ _ _ hv, by simp [hkc]⟩
  · intro dc now st docs
    unfold store_records
    apply count_zero_of_all_present
    intro d hd
    exact hasKey_after_run dc now docs (st, 0) d hd

/-- A concrete validated document for exercising the store stage. -/
def exStoreDoc : ODoc :=
  ⟨[("kind", PyVal.str "poem"), ("source_id", PyVal.str "h1"),
    ("title", PyVal.str "T"), ("created_at", PyVal.str "t0")],
   "documents"⟩

/-- The store after the first run of the one-document batch. -/
def exStore1 : MongoStore :=
  (store_records [exStoreDoc] "documents" "t1" []).1

/-- Witness for C1: inserting against an empty store fixes `created_at`
at `t0`; re-running the batch preserves it, overwrites `updated_at` with
the new timestamp, and reports zero inserts. -/
theorem store_records_spec_witness :
    storeCreated exStore1 (docKey "documents" exStoreDoc)
      = some (some (PyVal.str "t0")) ∧
    storeCreated (store_records [exStoreDoc] "documents" "t2" exStore1).1
        (docKey "documents" exStoreDoc)
      = storeCreated exStore1 (docKey "documents" exStoreDoc) ∧
    (∃ newdoc,
        storeDoc (store_records [exStoreDoc] "documents" "t2" exStore1).1
            (docKey "documents" exStoreDoc)
          = some newdoc ∧
        Dict.get newdoc "updated_at" = some (PyVal.str "t2")) ∧
    (store_records [exStoreDoc] "documents" "t1"
        (store_records [exStoreDoc] "documents" "t1" []).1).2 = 0 :=
  ⟨store_records_spec.1 "documents" "t1" [] exStoreDoc (PyVal.str "t0")
      (by decide) (by decide) (by decide),
   store_records_spec.2.1 "documents" "t2" exStore1 [exStoreDoc]
      (docKey "documents" exStoreDoc) (by decide),
   store_records_spec.2.2.1 "documents" "t2" exStore1 exStoreDoc
      (by decide) (by unfold keysNodup; decide) "updated_at"
      (PyVal.str "t2") (by decide) (by decide),
   store_records_spec.2.2.2 "documents" "t1" [] [exStoreDoc]⟩

end NazimTwin
